import Mathlib

/-!
Verification of the sentrylogmon monitoring pipeline.

This file gives a shallow embedding of the core data structures and
operations of the repository (rust/src): the fixed-window rate limiter,
the monitor buffer and read loop, the generic and dmesg detectors, the
command-line sanitizer, and the syslog channel reader, and proves the
specified properties about them.

Modelling conventions:
- time instants are natural numbers (nanoseconds); `Instant.duration_since`
  saturates at zero, matching tokio instants, which is exactly Nat
  subtraction;
- byte sequences are lists of naturals below 256; strings are Lean strings
  (valid UTF-8, as produced by `lines.next_line`);
- decimal timestamps parsed from dmesg lines are modelled as exact
  rationals (the source parses them as 64-bit floats; all concrete values
  used in the theorems below are exactly representable);
- external collaborators (the regex engine for user-supplied patterns, the
  detectors behind trait objects) are abstracted as function parameters.
-/

/-! ## RateLimiter (rust/src/monitor/mod.rs, lines 20-55) -/

/-- State of the fixed-window rate limiter: burst limit (0 = unlimited),
window duration, current count, and the instant at which the current
window began. -/
structure RateLimiter where
  limit : Nat
  window : Nat
  count : Nat
  windowStart : Nat
deriving Repr, DecidableEq

/-- RateLimiter::new, called at instant `now`: count starts at zero and the
window starts at the construction instant. -/
def RateLimiter.new (limit window now : Nat) : RateLimiter :=
  { limit := limit, window := window, count := 0, windowStart := now }

/-- RateLimiter::allow, evaluated at instant `now`. Mirrors the source: a
zero limit always allows; otherwise if the time since the window start
strictly exceeds the window, the window start resets to now and the count
to zero; then the count is compared with the limit. -/
def RateLimiter.allow (s : RateLimiter) (now : Nat) : Bool × RateLimiter :=
  if s.limit = 0 then (true, s)
  else
    let s1 := if s.window < now - s.windowStart
                then { s with windowStart := now, count := 0 }
                else s
    if s1.count < s1.limit
      then (true, { s1 with count := s1.count + 1 })
      else (false, s1)

/-- Run a sequence of allow() calls at the given instants, collecting the
results. -/
def RateLimiter.run : RateLimiter → List Nat → List Bool × RateLimiter
  | s, [] => ([], s)
  | s, t :: ts =>
    let r := s.allow t
    let rest := RateLimiter.run r.2 ts
    (r.1 :: rest.1, rest.2)

/-- Number of allowed calls in a result list. -/
def countTrue (bs : List Bool) : Nat := (bs.filter id).length

@[simp] theorem countTrue_nil : countTrue [] = 0 := rfl

@[simp] theorem countTrue_cons (b : Bool) (bs : List Bool) :
    countTrue (b :: bs) = cond b 1 0 + countTrue bs := by
  cases b <;> simp [countTrue, List.filter_cons, Nat.add_comm]

theorem RateLimiter.allow_of_in_window (s : RateLimiter) (t : Nat)
    (hl : s.limit ≠ 0) (ht : t - s.windowStart ≤ s.window) :
    s.allow t = if s.count < s.limit
      then (true, { s with count := s.count + 1 })
      else (false, s) := by
  simp only [RateLimiter.allow, if_neg hl, if_neg (Nat.not_lt.mpr ht)]

/-- Within a single window (no call time exceeds the window measured from
the current window start), the number of allowed calls is bounded by the
remaining budget of the window. -/
theorem RateLimiter.run_count_le : ∀ (times : List Nat) (s : RateLimiter),
    s.limit ≠ 0 → (∀ t ∈ times, t - s.windowStart ≤ s.window) →
    countTrue (s.run times).1 ≤ s.limit - s.count := by
  intro times
  induction times with
  | nil => intro s _ _; simp [RateLimiter.run]
  | cons t ts ih =>
    intro s hl hw
    have ht : t - s.windowStart ≤ s.window := hw t (by simp)
    have hw2 : ∀ u ∈ ts, u - s.windowStart ≤ s.window := by
      intro u hu; exact hw u (by simp [hu])
    by_cases hc : s.count < s.limit
    · have hrun : s.run (t :: ts) =
          ((true : Bool) :: ({ s with count := s.count + 1 }.run ts).1,
            ({ s with count := s.count + 1 }.run ts).2) := by
        simp [RateLimiter.run, RateLimiter.allow_of_in_window s t hl ht, hc]
      have hrec : countTrue ({ s with count := s.count + 1 }.run ts).1
          ≤ s.limit - (s.count + 1) :=
        ih { s with count := s.count + 1 } hl (by simpa using hw2)
      rw [hrun]
      simp only [countTrue_cons, cond_true]
      omega
    · have hrun : s.run (t :: ts) =
          ((false : Bool) :: (s.run ts).1, (s.run ts).2) := by
        simp [RateLimiter.run, RateLimiter.allow_of_in_window s t hl ht, hc]
      have hrec := ih s hl hw2
      rw [hrun]
      simp only [countTrue_cons, cond_false]
      omega

/-- With a zero burst limit the limiter allows every call, changing no
state. -/
theorem RateLimiter.run_limit_zero : ∀ (times : List Nat) (s : RateLimiter),
    s.limit = 0 → (s.run times).1 = times.map (fun _ => true) := by
  intro times
  induction times with
  | nil => intro s _; simp [RateLimiter.run]
  | cons t ts ih =>
    intro s h0
    simp [RateLimiter.run, RateLimiter.allow, h0, ih s h0]

/-- C3: For every RateLimiter with burst N > 0 and window W: at most N
calls are allowed within a window measured from the window start; once the
elapsed time strictly exceeds W the window start resets to now, the count
resets (to zero, then the resetting call itself is counted), and at most N
calls in total are allowed in the new window; with burst 0 every call is
allowed. -/
theorem rateLimiter_fixed_window (N W t0 now : Nat)
    (zs times1 times2 : List Nat) :
    ((RateLimiter.new 0 W t0).run zs).1 = zs.map (fun _ => true)
    ∧ (0 < N → (∀ t ∈ times1, t - t0 ≤ W) →
        countTrue ((RateLimiter.new N W t0).run times1).1 ≤ N)
    ∧ (0 < N → W < now - t0 →
        ((RateLimiter.new N W t0).allow now).1 = true
        ∧ ((RateLimiter.new N W t0).allow now).2
            = { limit := N, window := W, count := 1, windowStart := now }
        ∧ ((∀ t ∈ times2, t - now ≤ W) →
            countTrue ((RateLimiter.new N W t0).run (now :: times2)).1 ≤ N)) := by
  refine ⟨RateLimiter.run_limit_zero zs _ rfl, ?_, ?_⟩
  · intro hN hw
    have hl : N ≠ 0 := by omega
    have h := RateLimiter.run_count_le times1 (RateLimiter.new N W t0)
      (by simpa [RateLimiter.new] using hl)
      (by simpa [RateLimiter.new] using hw)
    simpa [RateLimiter.new] using h
  · intro hN hres
    have hl : N ≠ 0 := by omega
    have hallow : (RateLimiter.new N W t0).allow now =
        (true, { limit := N, window := W, count := 1, windowStart := now }) := by
      simp [RateLimiter.allow, RateLimiter.new, hl, hres, hN]
    refine ⟨by rw [hallow], by rw [hallow], ?_⟩
    intro hw
    have hafter : countTrue
        ({ limit := N, window := W, count := 1, windowStart := now
           : RateLimiter }.run times2).1 ≤ N - 1 :=
      RateLimiter.run_count_le times2
        { limit := N, window := W, count := 1, windowStart := now }
        (by simpa using hl) (by simpa using hw)
    have hrun : (RateLimiter.new N W t0).run (now :: times2) =
        ((true : Bool) ::
            ({ limit := N, window := W, count := 1, windowStart := now
               : RateLimiter }.run times2).1,
          ({ limit := N, window := W, count := 1, windowStart := now
             : RateLimiter }.run times2).2) := by
      simp [RateLimiter.run, hallow]
    rw [hrun]
    simp only [countTrue_cons, cond_true]
    omega

/-- Witness for rateLimiter_fixed_window: burst 2, window 10, window start 0;
two of the four in-window calls are allowed; a call at instant 11 resets the
window and at most 2 calls of the new window are allowed. -/
theorem rateLimiter_fixed_window_witness :
    ((RateLimiter.new 0 10 0).run [1, 2, 99]).1 = [1, 2, 99].map (fun _ => true)
    ∧ countTrue ((RateLimiter.new 2 10 0).run [0, 5, 7, 9]).1 ≤ 2
    ∧ ((RateLimiter.new 2 10 0).allow 11).1 = true
    ∧ ((RateLimiter.new 2 10 0).allow 11).2
        = { limit := 2, window := 10, count := 1, windowStart := 11 }
    ∧ countTrue ((RateLimiter.new 2 10 0).run (11 :: [12, 13, 20])).1 ≤ 2 := by
  have h := rateLimiter_fixed_window 2 10 0 11 [1, 2, 99] [0, 5, 7, 9] [12, 13, 20]
  have h2 := h.2.1 (by decide) (by decide)
  have h3 := h.2.2 (by decide) (by decide)
  exact ⟨h.1, h2, h3.1, h3.2.1, h3.2.2 (by decide)⟩

/-- C1 counterexample: a limiter with burst 1 and a zero window, constructed
at instant 0, allows both of two calls made at instants 1 and 2 — more than
`burst` calls return true over its lifetime, because the strict comparison
`elapsed > window` makes a zero window elapse as soon as any time passes. -/
theorem rateLimiter_zero_window_cx :
    countTrue ((RateLimiter.new 1 0 0).run [1, 2]).1 = 2 := by decide

/-- C1 amended: with burst > 0 and window = 0, a call made at any instant
strictly after the window start resets the window (the positive elapsed
time strictly exceeds the zero window) and is allowed, leaving count 1;
only calls made at or before the window-start instant are capped at burst. -/
theorem rateLimiter_zero_window_amended (s : RateLimiter) (now : Nat)
    (times : List Nat)
    (h0 : 0 < s.limit) (hw : s.window = 0) (hn : s.windowStart < now) :
    (s.allow now).1 = true
    ∧ (s.allow now).2
        = { limit := s.limit, window := 0, count := 1, windowStart := now }
    ∧ ((∀ t ∈ times, t ≤ s.windowStart) → s.count = 0 →
        countTrue (s.run times).1 ≤ s.limit) := by
  have hl : s.limit ≠ 0 := by omega
  have hres : s.window < now - s.windowStart := by omega
  have hallow : s.allow now =
      (true, { limit := s.limit, window := 0, count := 1, windowStart := now }) := by
    simp [RateLimiter.allow, hl, hres, h0, hw, hn]
  refine ⟨by rw [hallow], by rw [hallow], ?_⟩
  intro ht hc
  have h := RateLimiter.run_count_le times s hl
    (by intro t htm; have := ht t htm; omega)
  omega

/-- Witness for rateLimiter_zero_window_amended at a concrete limiter:
burst 1, window 0, window start 0, a call at instant 5 and two earlier
same-instant calls. -/
theorem rateLimiter_zero_window_amended_witness :
    (((RateLimiter.new 1 0 0).allow 5).1 = true)
    ∧ ((RateLimiter.new 1 0 0).allow 5).2
        = { limit := 1, window := 0, count := 1, windowStart := 5 }
    ∧ countTrue ((RateLimiter.new 1 0 0).run [0, 0]).1 ≤ 1 := by
  have h := rateLimiter_zero_window_amended (RateLimiter.new 1 0 0) 5 [0, 0]
    (by decide) (by decide) (by decide)
  exact ⟨h.1, h.2.1, h.2.2 (by decide) (by decide)⟩

/-! ## Monitor buffering and match handling (rust/src/monitor/mod.rs) -/

/-- MAX_BUFFER_SIZE from monitor/mod.rs line 13. -/
def MAX_BUFFER_SIZE : Nat := 1000

/-- Monitor::process_match: the accepted line is appended to the buffer;
when the buffer length reaches MAX_BUFFER_SIZE the whole buffer content is
flushed (returned as the second component, oldest line first) and the
buffer is cleared. -/
def processMatch (buf : List String) (line : String) :
    List String × Option (List String) :=
  let buf1 := buf ++ [line]
  if MAX_BUFFER_SIZE ≤ buf1.length then ([], some buf1) else (buf1, none)

theorem processMatch_eq (buf : List String) (line : String) :
    processMatch buf line =
      if MAX_BUFFER_SIZE ≤ buf.length + 1 then ([], some (buf ++ [line]))
      else (buf ++ [line], none) := by
  simp [processMatch]

/-- Message body handed to the sink for a flushed buffer: the buffered
lines joined with newline separators (buffer.join in the source). -/
def flushMessage (flushed : List String) : String :=
  String.intercalate "\n" flushed

/-- Exclusion check in Monitor::start: when an exclusion detector is
present it is applied to the line, otherwise nothing is excluded. -/
def excludedBy (excl : Option (String → Bool)) (line : String) : Bool :=
  match excl with
  | some e => e line
  | none => false

/-- One iteration of the Monitor read loop for one line (Monitor::start):
the primary detector is applied; on a match the optional exclusion detector
may drop the line; otherwise process_match buffers it. Detectors receive
the line bytes in the source; since a String determines its UTF-8 bytes,
they are modelled as predicates on the line. -/
def monitorStep (det : String → Bool) (excl : Option (String → Bool))
    (buf : List String) (line : String) : List String × Option (List String) :=
  if det line then
    if excludedBy excl line then (buf, none) else processMatch buf line
  else (buf, none)

/-- Process a list of lines through the Monitor read loop, collecting the
flush payloads in order and the final buffer. -/
def monitorRun (det : String → Bool) (excl : Option (String → Bool)) :
    List String → List String → List (List String) × List String
  | buf, [] => ([], buf)
  | buf, l :: ls =>
    let r := monitorStep det excl buf l
    let rest := monitorRun det excl r.1 ls
    (match r.2 with
     | some f => f :: rest.1
     | none => rest.1, rest.2)

/-- Lines accepted by the primary detector and not excluded. -/
def lineAccepted (det : String → Bool) (excl : Option (String → Bool))
    (line : String) : Bool :=
  det line && !excludedBy excl line

/-- Everything that was ever buffered — the concatenation of the flush
payloads followed by the final buffer — is exactly the initial buffer
followed by the accepted lines, in order. -/
theorem monitorRun_flatten (det : String → Bool) (excl : Option (String → Bool)) :
    ∀ (lines buf : List String),
      ((monitorRun det excl buf lines).1).flatten ++ (monitorRun det excl buf lines).2
        = buf ++ lines.filter (lineAccepted det excl) := by
  intro lines
  induction lines with
  | nil => intro buf; simp [monitorRun]
  | cons l ls ih =>
    intro buf
    by_cases hd : det l
    · by_cases he : excludedBy excl l
      · have hstep : monitorStep det excl buf l = (buf, none) := by
          simp [monitorStep, hd, he]
        simp [monitorRun, hstep, ih buf, List.filter_cons, lineAccepted, hd, he]
      · by_cases hfull : MAX_BUFFER_SIZE ≤ buf.length + 1
        · have hstep : monitorStep det excl buf l = ([], some (buf ++ [l])) := by
            simp [monitorStep, hd, he, processMatch_eq, hfull]
          simp [monitorRun, hstep, ih [], List.filter_cons, lineAccepted, hd, he]
        · have hstep : monitorStep det excl buf l = (buf ++ [l], none) := by
            simp [monitorStep, hd, he, processMatch_eq, hfull]
          simp [monitorRun, hstep, ih (buf ++ [l]), List.filter_cons,
            lineAccepted, hd, he]
    · have hstep : monitorStep det excl buf l = (buf, none) := by
        simp [monitorStep, hd]
      simp [monitorRun, hstep, ih buf, List.filter_cons, lineAccepted, hd]

/-- C4: appending the MAX_BUFFER_SIZEth line flushes exactly once, with all
buffered lines in order as the payload (joined with newlines for the sink
message) and an empty buffer afterwards; a shorter buffer is only appended
to; and process_match keeps the buffer strictly below MAX_BUFFER_SIZE. -/
theorem monitor_buffer_flush (buf buf2 buf3 : List String)
    (line l2 l3 : String)
    (h : buf.length + 1 = MAX_BUFFER_SIZE) (h2 : buf2.length + 1 < MAX_BUFFER_SIZE) :
    processMatch buf line = ([], some (buf ++ [line]))
    ∧ flushMessage (buf ++ [line]) = String.intercalate "\n" (buf ++ [line])
    ∧ processMatch buf2 l2 = (buf2 ++ [l2], none)
    ∧ (buf3.length < MAX_BUFFER_SIZE →
        (processMatch buf3 l3).1.length < MAX_BUFFER_SIZE) := by
  refine ⟨?_, rfl, ?_, ?_⟩
  · rw [processMatch_eq, if_pos (by omega)]
  · rw [processMatch_eq, if_neg (by omega)]
  · intro h3
    by_cases hfull : MAX_BUFFER_SIZE ≤ buf3.length + 1
    · rw [processMatch_eq, if_pos hfull]
      simp [MAX_BUFFER_SIZE]
    · rw [processMatch_eq, if_neg hfull]
      simp only [List.length_append, List.length_cons, List.length_nil]
      omega

/-- Witness for monitor_buffer_flush: a buffer of 999 lines flushes on the
1000th, a singleton buffer does not. -/
theorem monitor_buffer_flush_witness :
    processMatch (List.replicate 999 "a") "z"
      = ([], some (List.replicate 999 "a" ++ ["z"]))
    ∧ flushMessage (List.replicate 999 "a" ++ ["z"])
      = String.intercalate "\n" (List.replicate 999 "a" ++ ["z"])
    ∧ processMatch ["b"] "c" = (["b", "c"], none)
    ∧ ((List.replicate 999 "d").length < MAX_BUFFER_SIZE →
        (processMatch (List.replicate 999 "d") "e").1.length < MAX_BUFFER_SIZE) := by
  have h := monitor_buffer_flush (List.replicate 999 "a") ["b"]
    (List.replicate 999 "d") "z" "c" "e"
    (by rw [List.length_replicate]; decide)
    (by simp only [List.length_cons, List.length_nil, MAX_BUFFER_SIZE]; omega)
  exact ⟨h.1, h.2.1, by simpa using h.2.2.1, h.2.2.2⟩

/-- C7: a line is buffered iff the primary detector accepts it and the
exclusion detector does not match it; a line matched by both is dropped and
appears in no flush payload and not in the final buffer: the flushed lines
plus the final buffer are exactly the accepted lines. -/
theorem monitor_exclusion_filter (det e : String → Bool)
    (lines buf : List String) (l : String) :
    monitorStep det (some e) buf l
      = (if det l && !e l then processMatch buf l else (buf, none))
    ∧ ((monitorRun det (some e) [] lines).1).flatten
        ++ (monitorRun det (some e) [] lines).2
      = lines.filter (fun x => det x && !e x) := by
  constructor
  · by_cases hd : det l
    · by_cases he : e l
      · simp [monitorStep, excludedBy, hd, he]
      · simp [monitorStep, excludedBy, hd, he]
    · simp [monitorStep, excludedBy, hd]
  · have h := monitorRun_flatten det (some e) lines []
    simpa [lineAccepted, excludedBy] using h

/-- The exclusion-detector construction in Monitor::new: a present,
nonempty exclude pattern is compiled through
get_detector("custom", pattern), which for a nonempty pattern builds a
GenericDetector from the compiled regex; the Result is discarded into an
Option with .ok(). `compile` abstracts regex compilation (Regex::new),
returning none exactly on an invalid pattern. -/
def mkExclusionDetector (compile : String → Option (String → Bool)) :
    Option String → Option (String → Bool)
  | some pattern => if pattern ≠ "" then compile pattern else none
  | none => none

/-- Monitor construction state relevant to exclusion handling. Monitor::new
is total: it returns a Monitor for every input, whatever the exclude
pattern. -/
structure MonitorInit where
  exclusion : Option (String → Bool)

/-- Monitor::new restricted to the exclusion-detector field. -/
def Monitor.new (compile : String → Option (String → Bool))
    (exclude_pattern : Option String) : MonitorInit :=
  { exclusion := mkExclusionDetector compile exclude_pattern }

/-- C9: a nonempty exclude pattern that fails to compile yields a Monitor
with no exclusion detector, and the read loop then buffers and flushes
exactly as if no exclude pattern had been configured. -/
theorem monitor_invalid_exclude (compile : String → Option (String → Bool))
    (p : String) (det : String → Bool) (lines : List String)
    (hne : p ≠ "") (hc : compile p = none) :
    (Monitor.new compile (some p)).exclusion = none
    ∧ monitorRun det (Monitor.new compile (some p)).exclusion [] lines
        = monitorRun det none [] lines := by
  have hx : mkExclusionDetector compile (some p) = none := by
    simp [mkExclusionDetector, hne, hc]
  constructor
  · simp [Monitor.new, hx]
  · simp [Monitor.new, hx]

/-- Witness for monitor_invalid_exclude: a compile function rejecting every
pattern, the invalid pattern "[", and two lines. -/
theorem monitor_invalid_exclude_witness :
    (Monitor.new (fun _ => none) (some "[")).exclusion = none
    ∧ monitorRun (fun _ => true) (Monitor.new (fun _ => none) (some "[")).exclusion
        [] ["a", "b"]
      = monitorRun (fun _ => true) none [] ["a", "b"] := by
  exact monitor_invalid_exclude (fun _ => none) "[" (fun _ => true) ["a", "b"]
    (by decide) rfl

/-! ## Command sanitizer (rust/src/sysstat/sanitizer.rs) -/

/-- ASCII lowercasing of one character. Rust str::to_lowercase performs
Unicode lowering, which agrees with this on ASCII input. -/
def asciiLowerChar (c : Char) : Char :=
  if 'A' ≤ c ∧ c ≤ 'Z' then Char.ofNat (c.toNat + 32) else c

/-- ASCII lowercasing of a string. -/
def asciiLower (s : String) : String := ⟨s.toList.map asciiLowerChar⟩

/-- The SENSITIVE_FLAGS table: flags taking the next argument as a value,
with the flag mapped to whether the value must be redacted. -/
def SENSITIVE_FLAGS (s : String) : Option Bool :=
  if s = "--password" then some true
  else if s = "-p" then some false
  else if s = "--token" then some true
  else if s = "--api-key" then some true
  else if s = "--apikey" then some true
  else if s = "--secret" then some true
  else if s = "--client-secret" then some true
  else if s = "--access-token" then some true
  else if s = "--auth-token" then some true
  else none

/-- The SENSITIVE_SUFFIXES table. -/
def SENSITIVE_SUFFIXES : List String := ["password", "token", "secret", "_key"]

/-- is_sensitive_key: the lowercased key is an exact sensitive word or ends
in a sensitive suffix. -/
def is_sensitive_key (key : String) : Bool :=
  let lower := asciiLower key
  (lower = "password" || lower = "token" || lower = "secret"
      || lower = "key" || lower = "auth")
    || SENSITIVE_SUFFIXES.any (fun suf => suf.toList.isSuffixOf lower.toList)

/-- str::split_once of the first equals sign: the part before the first
equals sign and the part after it, or none when the string has no equals
sign. -/
def splitOnceEq (s : String) : Option (String × String) :=
  if s.toList.contains '=' then
    some (⟨s.toList.takeWhile (· ≠ '=')⟩,
          ⟨(s.toList.dropWhile (· ≠ '=')).tail⟩)
  else none

/-- str::trim_start_matches with a dash pattern: removes every leading
dash. -/
def trimStartDashes (s : String) : String := ⟨s.toList.dropWhile (· = '-')⟩

/-- The loop body of sanitize_command. The Boolean argument is skip_next:
when set, the current argument is replaced by [REDACTED]. A key=value
argument is redacted when its key (leading dashes removed) is sensitive or
its raw key is in SENSITIVE_FLAGS; a flag in SENSITIVE_FLAGS marked true
causes the following argument, when one exists, to be redacted. -/
def sanitizeGo : List String → Bool → List String
  | [], _ => []
  | _ :: rest, true => "[REDACTED]" :: sanitizeGo rest false
  | arg :: rest, false =>
    match splitOnceEq arg with
    | some (key, _) =>
      if is_sensitive_key (trimStartDashes key) then
        (key ++ "=[REDACTED]") :: sanitizeGo rest false
      else if (SENSITIVE_FLAGS key).isSome then
        (key ++ "=[REDACTED]") :: sanitizeGo rest false
      else arg :: sanitizeGo rest false
    | none =>
      match SENSITIVE_FLAGS arg with
      | some shouldSkip => arg :: sanitizeGo rest (shouldSkip && !rest.isEmpty)
      | none => arg :: sanitizeGo rest false

/-- sanitize_command: reconstruct the command line, redacting sensitive
values, and join with single spaces. -/
def sanitize_command (args : List String) : String :=
  if args.isEmpty then "" else String.intercalate " " (sanitizeGo args false)

/-- C8: the two round-trip redaction examples from the spec. -/
theorem sanitize_command_examples :
    sanitize_command ["app", "--password", "secret123"]
      = "app --password [REDACTED]"
    ∧ sanitize_command ["app", "--token=abc"] = "app --token=[REDACTED]" := by
  constructor <;> rfl

/-- C10: when a space-separated sensitive flag that takes a value is the
last argument, nothing is redacted for it: skip_next is only set when a
next argument exists (i + 1 < args.len()), so the flag itself is kept
verbatim and, when no other argument triggers redaction, the output is the
arguments joined by single spaces unchanged. -/
theorem sanitize_trailing_flag (init : List String) (f : String)
    (hf : SENSITIVE_FLAGS f = some true) (hfe : splitOnceEq f = none)
    (hinit : ∀ a ∈ init, splitOnceEq a = none ∧ SENSITIVE_FLAGS a = none) :
    sanitizeGo (init ++ [f]) false = init ++ [f]
    ∧ sanitize_command (init ++ [f])
        = String.intercalate " " (init ++ [f]) := by
  have hgo : ∀ (l : List String), (∀ a ∈ l, splitOnceEq a = none ∧ SENSITIVE_FLAGS a = none) →
      sanitizeGo (l ++ [f]) false = l ++ [f] := by
    intro l
    induction l with
    | nil =>
      intro _
      simp [sanitizeGo, hfe, hf]
    | cons a rest ih =>
      intro hmem
      have ha := hmem a (by simp)
      have hrest : ∀ b ∈ rest, splitOnceEq b = none ∧ SENSITIVE_FLAGS b = none := by
        intro b hb; exact hmem b (by simp [hb])
      simp [sanitizeGo, ha.1, ha.2, ih hrest]
  have h1 := hgo init hinit
  refine ⟨h1, ?_⟩
  have hne : (init ++ [f]).isEmpty = false := by
    simp [List.isEmpty_iff]
  simp [sanitize_command, hne, h1]

/-- Witness for sanitize_trailing_flag: a trailing --password flag after a
plain program name passes through unredacted. -/
theorem sanitize_trailing_flag_witness :
    sanitizeGo (["app"] ++ ["--password"]) false = ["app"] ++ ["--password"]
    ∧ sanitize_command (["app"] ++ ["--password"])
        = String.intercalate " " (["app"] ++ ["--password"]) := by
  exact sanitize_trailing_flag ["app"] "--password" (by rfl) (by rfl)
    (by intro a ha; simp at ha; subst ha; exact ⟨rfl, rfl⟩)

/-! ## Dmesg correlation detector (rust/src/detectors/mod.rs) -/

/-- Whitespace class of the regex engine (and of str::trim), restricted to
ASCII, which covers every input considered here. -/
def isRegexWS (c : Char) : Bool :=
  c = ' ' || c = '\t' || c = '\n' || c = '\r' || c = '\x0B' || c = '\x0C'

/-- Substring test: does `pat` occur contiguously inside `hay`? This is
regex is_match for a literal word. -/
def containsSub (hay pat : List Char) : Bool :=
  (List.range (hay.length + 1)).any (fun i => pat.isPrefixOf (hay.drop i))

/-- The error vocabulary of the DmesgDetector. -/
def dmesgVocabWords : List String := ["error", "fail", "panic", "oops", "exception"]

/-- Case-insensitive error-vocabulary match: the GenericDetector built from
the alternation of the vocabulary words, case-folded. Matches iff some word
occurs in the lowercased line. -/
def dmesgVocab (line : String) : Bool :=
  let low := line.toList.map asciiLowerChar
  dmesgVocabWords.any (fun w => containsSub low w.toList)

/-- Parse of dmesg_start_regex, a bracketed floating-point timestamp at the
start of the line: an opening bracket, optional whitespace, one or more
digits, a dot, one or more digits, and a closing bracket. Returns the two
digit groups and the rest of the line. The regex backtracking is
deterministic here because the whitespace, digit, dot and bracket classes
are pairwise disjoint. -/
def dmesgTsParse : List Char → Option ((List Char × List Char) × List Char)
  | '[' :: rest =>
    let rest1 := rest.dropWhile isRegexWS
    let d1 := rest1.takeWhile Char.isDigit
    let rest2 := rest1.dropWhile Char.isDigit
    if d1.isEmpty then none
    else
      match rest2 with
      | '.' :: rest3 =>
        let d2 := rest3.takeWhile Char.isDigit
        let rest4 := rest3.dropWhile Char.isDigit
        if d2.isEmpty then none
        else
          match rest4 with
          | ']' :: rest5 => some ((d1, d2), rest5)
          | _ => none
      | _ => none
  | _ => none

/-- The header capture of dmesg_line_regex after the closing bracket:
greedy optional whitespace, then one or more non-colon characters, then a
colon. The capture is the text between the whitespace run and the first
colon; when everything before the colon is whitespace, backtracking leaves
exactly the last whitespace character in the capture. Returns none when the
rest has no colon or starts with one. -/
def headerCapture (rest : List Char) : Option (List Char) :=
  let pre := rest.takeWhile (· ≠ ':')
  if pre.length = rest.length then none
  else if pre.isEmpty then none
  else
    let ws := pre.takeWhile isRegexWS
    some (pre.drop (min ws.length (pre.length - 1)))

/-- Numeric value of a digit string. -/
def digitsToNat (ds : List Char) : Nat :=
  ds.foldl (fun n c => 10 * n + (c.toNat - '0'.toNat)) 0

/-- Exact rational value of the parsed decimal timestamp. The source parses
it into a 64-bit float; the rationals are exact on the values used here. -/
def ratOfDigits (d1 d2 : List Char) : ℚ :=
  (digitsToNat d1 : ℚ) + (digitsToNat d2 : ℚ) / (10 : ℚ) ^ d2.length

/-- Captures of dmesg_line_regex: the timestamp value and the header
characters, when the full pattern matches. -/
def dmesgLineCaptures (cs : List Char) : Option (ℚ × List Char) :=
  match dmesgTsParse cs with
  | none => none
  | some (ds, rest) =>
    match headerCapture rest with
    | none => none
    | some h => some (ratOfDigits ds.1 ds.2, h)

/-- Timestamp extracted in DmesgDetector::detect: 0.0 when the line regex
does not match (the local variable keeps its initialization). -/
def capturedTs (cs : List Char) : ℚ :=
  match dmesgLineCaptures cs with
  | some th => th.1
  | none => 0

/-- Header extracted in DmesgDetector::detect: empty when the line regex
does not match. -/
def capturedHeader (cs : List Char) : String :=
  match dmesgLineCaptures cs with
  | some th => ⟨th.2⟩
  | none => ""

/-- str::trim on both ends, ASCII whitespace. -/
def rustTrim (s : String) : String :=
  ⟨((s.toList.dropWhile isRegexWS).reverse.dropWhile isRegexWS).reverse⟩

/-- are_headers_related: both headers nonempty after trimming, and equal or
one the starting segment of the other. -/
def are_headers_related (h1 h2 : String) : Bool :=
  let t1 := rustTrim h1
  let t2 := rustTrim h2
  if t1 = "" || t2 = "" then false
  else if t1 = t2 then true
  else t2.toList.isPrefixOf t1.toList || t1.toList.isPrefixOf t2.toList

/-- Mutable state of the DmesgDetector: last matched timestamp (initially
0.0) and last matched header (initially empty). -/
structure DmesgState where
  last_match_time : ℚ
  last_match_header : String

/-- DmesgDetector::detect on a valid UTF-8 line, returning the verdict and
the updated state. Follows the source exactly: an error-vocabulary match
records timestamp and header (when present) and returns true; otherwise,
with a recorded last header, a new-record line is related context iff it
has a nonempty header, a positive timestamp, a signed timestamp difference
of at most 5.0, and a related header; a continuation line is always
attributed to the last match. -/
def dmesgDetect (st : DmesgState) (line : String) : Bool × DmesgState :=
  let cs := line.toList
  let is_error := dmesgVocab line
  let is_dmesg_line := (dmesgTsParse cs).isSome
  let timestamp := capturedTs cs
  let header := capturedHeader cs
  if is_error then
    let st1 := if 0 < timestamp then { st with last_match_time := timestamp } else st
    let st2 := if header ≠ "" then { st1 with last_match_header := header } else st1
    (true, st2)
  else if st.last_match_header ≠ "" then
    if is_dmesg_line then
      if header ≠ "" ∧ 0 < timestamp ∧ timestamp - st.last_match_time ≤ 5
          ∧ are_headers_related st.last_match_header header = true
        then (true, st) else (false, st)
    else (true, st)
  else (false, st)

/-- Branch characterization used for C2: with a recorded last match, on a
non-vocabulary line that looks like a new record, detect returns true iff
the captured header is nonempty, the captured timestamp is positive, the
signed difference to the last matched timestamp is at most 5.0, and the
headers are related. -/
theorem dmesgDetect_new_record (st : DmesgState) (line : String)
    (h1 : st.last_match_header ≠ "") (h2 : dmesgVocab line = false)
    (h3 : (dmesgTsParse line.toList).isSome = true) :
    (dmesgDetect st line).1 = true ↔
      (capturedHeader line.toList ≠ ""
        ∧ 0 < capturedTs line.toList
        ∧ capturedTs line.toList - st.last_match_time ≤ 5
        ∧ are_headers_related st.last_match_header (capturedHeader line.toList)
            = true) := by
  simp only [dmesgDetect, h2, h3, Bool.false_eq_true, if_false, if_pos h1, if_true]
  split
  · exact iff_of_true rfl (by assumption)
  · exact iff_of_false (by simp) (by assumption)

/-- C2 (amended): with a recorded last match, a non-vocabulary line that
looks like a new record is detected iff it has a nonempty captured header,
a positive captured timestamp, a signed timestamp difference (new minus
last) of at most 5.0 — a line timestamped arbitrarily earlier than the last
match also passes this check — and a related header; otherwise detect
returns false. -/
theorem dmesg_new_record_decision (st : DmesgState) (line : String)
    (h1 : st.last_match_header ≠ "") (h2 : dmesgVocab line = false)
    (h3 : (dmesgTsParse line.toList).isSome = true) :
    (dmesgDetect st line).1 = true ↔
      (capturedHeader line.toList ≠ ""
        ∧ 0 < capturedTs line.toList
        ∧ capturedTs line.toList - st.last_match_time ≤ 5
        ∧ are_headers_related st.last_match_header (capturedHeader line.toList)
            = true) :=
  dmesgDetect_new_record st line h1 h2 h3

/-- Witness for dmesg_new_record_decision at the spec scenario: last match
ata1 at 10.0, follow-up record at 10.2 with the same header. -/
theorem dmesg_new_record_decision_witness :
    (dmesgDetect ⟨10, "ata1"⟩ "[10.2] ata1: more detail").1 = true ↔
      (capturedHeader ("[10.2] ata1: more detail".toList) ≠ ""
        ∧ 0 < capturedTs ("[10.2] ata1: more detail".toList)
        ∧ capturedTs ("[10.2] ata1: more detail".toList) - 10 ≤ 5
        ∧ are_headers_related "ata1"
            (capturedHeader ("[10.2] ata1: more detail".toList)) = true) :=
  dmesg_new_record_decision ⟨10, "ata1"⟩ "[10.2] ata1: more detail"
    (by decide) (by decide) (by decide)

/-- C2 counterexample to the claim as stated. First input: last match ata1
at time 100.0, new line "[1.0] ata1: foo" — its timestamp is 99 units away
from the last match, not within 5.0, yet detect returns true, because the
source compares the signed difference 1.0 - 100.0 <= 5.0. Second input:
last match ata1 at time 3.0, new line "[0.0] ata1: foo" — it has a header
and a (textual) timestamp within 5.0 of the last match and a related
header, yet detect returns false, because the source additionally requires
timestamp > 0.0. -/
theorem dmesg_new_record_cx :
    (dmesgDetect ⟨100, "ata1"⟩ "[1.0] ata1: foo").1 = true
    ∧ capturedTs ("[1.0] ata1: foo".toList) = 1
    ∧ ¬ (|(1 : ℚ) - 100| ≤ 5)
    ∧ (dmesgDetect ⟨3, "ata1"⟩ "[0.0] ata1: foo").1 = false
    ∧ capturedHeader ("[0.0] ata1: foo".toList) = "ata1"
    ∧ (dmesgTsParse ("[0.0] ata1: foo".toList)).isSome = true
    ∧ are_headers_related "ata1" "ata1" = true
    ∧ (|(0 : ℚ) - 3| ≤ 5) := by
  have hts1 : capturedTs ("[1.0] ata1: foo".toList) = 1 := by
    have hp : dmesgTsParse "[1.0] ata1: foo".toList
        = some ((['1'], ['0']), " ata1: foo".toList) := by decide
    have hh : headerCapture (" ata1: foo".toList) = some ['a', 't', 'a', '1'] := by
      decide
    simp only [capturedTs, dmesgLineCaptures, hp, hh]
    norm_num [ratOfDigits, digitsToNat]
    decide
  have hts0 : capturedTs ("[0.0] ata1: foo".toList) = 0 := by
    have hp : dmesgTsParse "[0.0] ata1: foo".toList
        = some ((['0'], ['0']), " ata1: foo".toList) := by decide
    have hh : headerCapture (" ata1: foo".toList) = some ['a', 't', 'a', '1'] := by
      decide
    simp only [capturedTs, dmesgLineCaptures, hp, hh]
    norm_num [ratOfDigits, digitsToNat]
  have hhd1 : capturedHeader ("[1.0] ata1: foo".toList) = "ata1" := by decide
  have hhd0 : capturedHeader ("[0.0] ata1: foo".toList) = "ata1" := by decide
  have hdet1 : (dmesgDetect ⟨100, "ata1"⟩ "[1.0] ata1: foo").1 = true := by
    rw [dmesgDetect_new_record ⟨100, "ata1"⟩ "[1.0] ata1: foo"
      (by decide) (by decide) (by decide)]
    refine ⟨by rw [hhd1]; decide, by rw [hts1]; norm_num, ?_, by rw [hhd1]; decide⟩
    rw [hts1]
    norm_num
  have hdet0 : (dmesgDetect ⟨3, "ata1"⟩ "[0.0] ata1: foo").1 = false := by
    have hiff := dmesgDetect_new_record ⟨3, "ata1"⟩ "[0.0] ata1: foo"
      (by decide) (by decide) (by decide)
    have hnot : ¬ ((dmesgDetect ⟨3, "ata1"⟩ "[0.0] ata1: foo").1 = true) := by
      rw [hiff]
      intro hC
      have h0 := hC.2.1
      rw [hts0] at h0
      exact absurd h0 (by norm_num)
    exact Bool.not_eq_true _ |>.mp hnot
  refine ⟨hdet1, hts1, by norm_num, hdet0, hhd0, by decide, by decide, by norm_num⟩

/-! ## Generic detector and UTF-8 validation (rust/src/detectors/mod.rs) -/

/-- UTF-8 continuation byte: 0x80 to 0xBF. -/
def isUtf8Cont (b : Nat) : Bool := 128 ≤ b && b ≤ 191

/-- Constraint on the first continuation byte after a multi-byte lead,
ruling out overlong encodings, surrogates and values above 0x10FFFF, as
str::from_utf8 does. -/
def utf8Cont1OK (lead b1 : Nat) : Bool :=
  if lead = 224 then 160 ≤ b1 && b1 ≤ 191
  else if lead = 237 then 128 ≤ b1 && b1 ≤ 159
  else if lead = 240 then 144 ≤ b1 && b1 ≤ 191
  else if lead = 244 then 128 ≤ b1 && b1 ≤ 143
  else isUtf8Cont b1

/-- Decode a byte sequence as UTF-8, or return none when it is not valid
UTF-8 — exactly the sequences str::from_utf8 rejects. -/
def utf8Decode : List Nat → Option (List Char)
  | [] => some []
  | b :: rest =>
    if b < 128 then
      match utf8Decode rest with
      | some cs => some (Char.ofNat b :: cs)
      | none => none
    else if 194 ≤ b && b ≤ 223 then
      match rest with
      | b1 :: rest2 =>
        if isUtf8Cont b1 then
          match utf8Decode rest2 with
          | some cs => some (Char.ofNat ((b - 192) * 64 + (b1 - 128)) :: cs)
          | none => none
        else none
      | [] => none
    else if 224 ≤ b && b ≤ 239 then
      match rest with
      | b1 :: b2 :: rest3 =>
        if utf8Cont1OK b b1 && isUtf8Cont b2 then
          match utf8Decode rest3 with
          | some cs =>
            some (Char.ofNat ((b - 224) * 4096 + (b1 - 128) * 64 + (b2 - 128)) :: cs)
          | none => none
        else none
      | _ => none
    else if 240 ≤ b && b ≤ 244 then
      match rest with
      | b1 :: b2 :: b3 :: rest4 =>
        if utf8Cont1OK b b1 && isUtf8Cont b2 && isUtf8Cont b3 then
          match utf8Decode rest4 with
          | some cs =>
            some (Char.ofNat ((b - 240) * 262144 + (b1 - 128) * 4096
              + (b2 - 128) * 64 + (b3 - 128)) :: cs)
          | none => none
        else none
      | _ => none
    else none

/-- GenericDetector::detect: decode the line bytes as UTF-8 and run the
compiled regex on the text; a non-UTF-8 line never matches. `isMatch`
abstracts regex::Regex::is_match of the compiled pattern. -/
def GenericDetector.detect (isMatch : List Char → Bool) (line : List Nat) : Bool :=
  match utf8Decode line with
  | some cs => isMatch cs
  | none => false

/-- C5: for every pattern and byte sequence, the generic detector returns
true iff the bytes decode as UTF-8 to a text matched by the pattern, and
returns false on every non-UTF-8 byte sequence regardless of the
pattern. -/
theorem generic_detector_utf8 (isMatch : List Char → Bool) (line : List Nat) :
    (GenericDetector.detect isMatch line = true ↔
      ∃ cs, utf8Decode line = some cs ∧ isMatch cs = true)
    ∧ (utf8Decode line = none → GenericDetector.detect isMatch line = false) := by
  constructor
  · cases h : utf8Decode line with
    | none => simp [GenericDetector.detect, h]
    | some cs =>
      simp only [GenericDetector.detect, h]
      constructor
      · intro hm; exact ⟨cs, rfl, hm⟩
      · rintro ⟨cs2, hcs2, hm⟩
        cases hcs2
        exact hm
  · intro h
    simp [GenericDetector.detect, h]

/-- Witness for generic_detector_utf8: the byte 0xFF is not valid UTF-8, so
even an always-matching pattern does not fire. -/
theorem generic_detector_utf8_witness :
    GenericDetector.detect (fun _ => true) [255] = false :=
  (generic_detector_utf8 (fun _ => true) [255]).2 (by decide)

/-! ## Syslog channel reader (rust/src/sources/syslog.rs, ChannelReader) -/

/-- State of the ChannelReader: the messages queued in the mpsc channel
(oldest first), whether every sender has been dropped (channel closed), and
the cursor over the current in-flight message (its bytes and the read
position). -/
structure ChannelReader where
  queue : List (List Nat)
  closed : Bool
  current_chunk : Option (List Nat × Nat)
deriving Repr, DecidableEq

/-- Outcome of one poll_read call: some bytes were copied into the caller
buffer, end-of-stream was signalled (a ready return with nothing written),
or the read is pending. Each outcome carries the successor state. -/
inductive PollRead where
  | data (bytes : List Nat) (s : ChannelReader)
  | eof (s : ChannelReader)
  | pending (s : ChannelReader)
deriving Repr, DecidableEq

/-- The recv part of the poll_read loop: pull messages from the channel;
an empty message is installed as an exhausted cursor and the loop
immediately pulls again, a nonempty one has its head copied out (at most
`n` bytes, the caller capacity) and becomes the current chunk; an empty
closed channel is end-of-stream, an empty open channel is pending. -/
def recvLoop (n : Nat) : List (List Nat) → Bool → PollRead
  | d :: rest, closed =>
    if 0 < d.length then
      PollRead.data (d.take (min d.length n))
        { queue := rest, closed := closed,
          current_chunk := some (d, min d.length n) }
    else recvLoop n rest closed
  | [], closed =>
    if closed then PollRead.eof { queue := [], closed := closed, current_chunk := none }
    else PollRead.pending { queue := [], closed := closed, current_chunk := none }

/-- ChannelReader::poll_read with caller capacity `n`: while the current
chunk has unread bytes, copy out at most `n` of them and advance the
cursor; an exhausted chunk is dropped and the next message is pulled from
the channel. -/
def pollRead (s : ChannelReader) (n : Nat) : PollRead :=
  match s.current_chunk with
  | some c =>
    if 0 < c.1.length - c.2 then
      PollRead.data ((c.1.drop c.2).take (min (c.1.length - c.2) n))
        { queue := s.queue, closed := s.closed,
          current_chunk := some (c.1, c.2 + min (c.1.length - c.2) n) }
    else recvLoop n s.queue s.closed
  | none => recvLoop n s.queue s.closed

/-- Bytes not yet delivered by the reader: the unread tail of the current
chunk followed by the queued messages. -/
def pendingBytes (s : ChannelReader) : List Nat :=
  (match s.current_chunk with
   | some c => c.1.drop c.2
   | none => []) ++ s.queue.flatten

/-- Read the adapter to the end, as read_to_end does: repeat poll_read with
capacity `n`, concatenating the copied bytes, until end-of-stream. The fuel
bounds the number of calls. -/
def readAll : Nat → ChannelReader → Nat → List Nat
  | 0, _, _ => []
  | fuel + 1, s, n =>
    match pollRead s n with
    | PollRead.data bs s1 => bs ++ readAll fuel s1 n
    | PollRead.eof _ => []
    | PollRead.pending _ => []


theorem recvLoop_spec (n : Nat) (hn : 1 ≤ n) :
    ∀ (q : List (List Nat)) (cl : Bool),
      (∃ bs s1, recvLoop n q cl = PollRead.data bs s1 ∧ 1 ≤ bs.length
        ∧ bs ++ pendingBytes s1 = q.flatten ∧ s1.closed = cl)
      ∨ (recvLoop n q cl
            = (if cl then PollRead.eof { queue := [], closed := cl, current_chunk := none }
               else PollRead.pending { queue := [], closed := cl, current_chunk := none })
          ∧ q.flatten = []) := by
  intro q
  induction q with
  | nil =>
    intro cl
    right
    constructor
    · by_cases hcl : cl <;> simp [recvLoop, hcl]
    · simp
  | cons d rest ih =>
    intro cl
    by_cases hd : 0 < d.length
    · left
      refine ⟨d.take (min d.length n),
        { queue := rest, closed := cl, current_chunk := some (d, min d.length n) },
        by simp [recvLoop, hd], ?_, ?_, rfl⟩
      · simp only [List.length_take]
        omega
      · simp only [pendingBytes, List.flatten_cons]
        have hsplit : d.take (min d.length n) ++ d.drop (min d.length n) = d :=
          List.take_append_drop _ d
        rw [← List.append_assoc, hsplit]
    · have hnil : d = [] := List.length_eq_zero.mp (by omega)
      have h := ih cl
      subst hnil
      simpa [recvLoop] using h

theorem pollRead_spec (s : ChannelReader) (n : Nat) (hn : 1 ≤ n) :
    (∃ bs s1, pollRead s n = PollRead.data bs s1 ∧ 1 ≤ bs.length
      ∧ bs ++ pendingBytes s1 = pendingBytes s ∧ s1.closed = s.closed)
    ∨ (pollRead s n
          = (if s.closed
             then PollRead.eof { queue := [], closed := s.closed, current_chunk := none }
             else PollRead.pending { queue := [], closed := s.closed, current_chunk := none })
        ∧ pendingBytes s = []) := by
  match hc : s.current_chunk with
  | some c =>
    by_cases hrem : 0 < c.1.length - c.2
    · left
      refine ⟨(c.1.drop c.2).take (min (c.1.length - c.2) n),
        { queue := s.queue, closed := s.closed,
          current_chunk := some (c.1, c.2 + min (c.1.length - c.2) n) },
        by simp [pollRead, hc, hrem], ?_, ?_, rfl⟩
      · simp only [List.length_take, List.length_drop]
        omega
      · simp only [pendingBytes, hc]
        have hsplit : (c.1.drop c.2).take (min (c.1.length - c.2) n)
            ++ (c.1.drop c.2).drop (min (c.1.length - c.2) n) = c.1.drop c.2 :=
          List.take_append_drop _ _
        have hdd : (c.1.drop c.2).drop (min (c.1.length - c.2) n)
            = c.1.drop (c.2 + min (c.1.length - c.2) n) :=
          List.drop_drop _ _ _
        rw [← List.append_assoc, ← hdd, hsplit]
    · have hrl : pollRead s n = recvLoop n s.queue s.closed := by
        simp [pollRead, hc, hrem]
      have hdrop : c.1.drop c.2 = [] := List.drop_eq_nil_of_le (by omega)
      have hpend : pendingBytes s = s.queue.flatten := by
        simp [pendingBytes, hc, hdrop]
      rw [hrl, hpend]
      exact recvLoop_spec n hn s.queue s.closed
  | none =>
    have hrl : pollRead s n = recvLoop n s.queue s.closed := by
      simp [pollRead, hc]
    have hpend : pendingBytes s = s.queue.flatten := by simp [pendingBytes, hc]
    rw [hrl, hpend]
    exact recvLoop_spec n hn s.queue s.closed

theorem readAll_spec : ∀ (fuel : Nat) (s : ChannelReader) (n : Nat),
    s.closed = true → 1 ≤ n → (pendingBytes s).length < fuel →
    readAll fuel s n = pendingBytes s := by
  intro fuel
  induction fuel with
  | zero => intro s n _ _ hlt; omega
  | succ fuel ih =>
    intro s n hcl hn hlt
    rcases pollRead_spec s n hn with ⟨bs, s1, hread, hbs, happ, hclosed⟩ | ⟨hread, hpend⟩
    · have hlen : (pendingBytes s1).length < fuel := by
        have hl2 := congrArg List.length happ
        simp only [List.length_append] at hl2
        omega
      have hrec := ih s1 n (by rw [hclosed, hcl]) hn hlen
      simp only [readAll, hread, hrec, happ]
    · rw [hcl] at hread
      simp only [readAll, hread, if_true]
      exact hpend.symm

/-- C6: the ChannelReader copies out at most the caller capacity per read,
pulls a new message only once the current one is fully consumed (an
unfinished chunk leaves the queue untouched), signals end-of-stream when
the channel is closed and nothing is pending, and reading it to the end
yields the concatenation of the pushed messages in push order. -/
theorem channel_reader_spec (s s1 : ChannelReader) (msgs : List (List Nat))
    (d bs : List Nat) (pos n fuel : Nat) :
    (pollRead s n = PollRead.data bs s1 → bs.length ≤ n)
    ∧ (s.current_chunk = some (d, pos) → pos < d.length →
        pollRead s n = PollRead.data ((d.drop pos).take (min (d.length - pos) n))
          { queue := s.queue, closed := s.closed,
            current_chunk := some (d, pos + min (d.length - pos) n) })
    ∧ (s.closed = true → pendingBytes s = [] →
        pollRead s n
          = PollRead.eof { queue := [], closed := true, current_chunk := none })
    ∧ (1 ≤ n → msgs.flatten.length < fuel →
        readAll fuel { queue := msgs, closed := true, current_chunk := none } n
          = msgs.flatten) := by
  have hrecv_len : ∀ (q : List (List Nat)) (cl : Bool) (bs2 : List Nat)
      (s2 : ChannelReader), recvLoop n q cl = PollRead.data bs2 s2 →
      bs2.length ≤ n := by
    intro q
    induction q with
    | nil =>
      intro cl bs2 s2 h
      by_cases hcl : cl <;> simp [recvLoop, hcl] at h
    | cons e rest ih =>
      intro cl bs2 s2 h
      by_cases he : 0 < e.length
      · simp only [recvLoop, if_pos he, PollRead.data.injEq] at h
        rcases h with ⟨h1, _⟩
        subst h1
        simp only [List.length_take]
        omega
      · simp only [recvLoop, if_neg he] at h
        exact ih cl bs2 s2 h
  have hrecv_eof : ∀ (q : List (List Nat)), q.flatten = [] →
      recvLoop n q true
        = PollRead.eof { queue := [], closed := true, current_chunk := none } := by
    intro q
    induction q with
    | nil => intro _; simp [recvLoop]
    | cons e rest ih =>
      intro h
      simp only [List.flatten_cons, List.append_eq_nil] at h
      have he : ¬ 0 < e.length := by
        rw [h.1]
        simp
      simp only [recvLoop, if_neg he]
      exact ih h.2
  refine ⟨?_, ?_, ?_, ?_⟩
  · intro hread
    match hc : s.current_chunk with
    | some c =>
      by_cases hrem : 0 < c.1.length - c.2
      · simp only [pollRead, hc, if_pos hrem, PollRead.data.injEq] at hread
        rcases hread with ⟨h1, _⟩
        subst h1
        simp only [List.length_take]
        omega
      · simp only [pollRead, hc, if_neg hrem] at hread
        exact hrecv_len s.queue s.closed bs s1 hread
    | none =>
      simp only [pollRead, hc] at hread
      exact hrecv_len s.queue s.closed bs s1 hread
  · intro hc hpos
    have hrem : 0 < d.length - pos := by omega
    simp [pollRead, hc, hrem]
  · intro hcl hpend
    match hq : s.current_chunk with
    | some c =>
      simp only [pendingBytes, hq, List.append_eq_nil] at hpend
      have hdrop : c.1.drop c.2 = [] := hpend.1
      have hflat : s.queue.flatten = [] := hpend.2
      have hrem : ¬ 0 < c.1.length - c.2 := by
        have hl2 := congrArg List.length hdrop
        simp only [List.length_drop, List.length_nil] at hl2
        omega
      simp only [pollRead, hq, if_neg hrem, hcl]
      exact hrecv_eof s.queue hflat
    | none =>
      simp only [pendingBytes, hq, List.nil_append] at hpend
      simp only [pollRead, hq, hcl]
      exact hrecv_eof s.queue hpend
  · intro hn hfuel
    have h := readAll_spec fuel
      { queue := msgs, closed := true, current_chunk := none } n rfl hn
      (by simpa [pendingBytes] using hfuel)
    simpa [pendingBytes] using h

/-- Witness for channel_reader_spec: a one-byte-capacity read copies one
byte of the in-flight chunk without pulling from the queue; a closed empty
reader signals end-of-stream; reading two pushed messages to the end
yields their concatenation. -/
theorem channel_reader_spec_witness :
    (pollRead { queue := [[9]], closed := false, current_chunk := some ([7, 8], 1) } 1
        = PollRead.data (([7, 8].drop 1).take (min ([7, 8].length - 1) 1))
            { queue := [[9]], closed := false,
              current_chunk := some ([7, 8], 1 + min ([7, 8].length - 1) 1) })
    ∧ (pollRead { queue := [], closed := true, current_chunk := none } 1
        = PollRead.eof { queue := [], closed := true, current_chunk := none })
    ∧ (readAll 4 { queue := [[104, 105], [10]], closed := true, current_chunk := none } 2
        = [[104, 105], [10]].flatten) := by
  have h1 := channel_reader_spec
    { queue := [[9]], closed := false, current_chunk := some ([7, 8], 1) }
    { queue := [[9]], closed := false, current_chunk := some ([7, 8], 2) }
    [[104, 105], [10]] [7, 8] [8] 1 1 4
  have h2 := channel_reader_spec
    { queue := [], closed := true, current_chunk := none }
    { queue := [], closed := true, current_chunk := none }
    [[104, 105], [10]] [7, 8] [8] 1 1 4
  have h3 := channel_reader_spec
    { queue := [[104, 105], [10]], closed := true, current_chunk := none }
    { queue := [], closed := true, current_chunk := none }
    [[104, 105], [10]] [7, 8] [8] 1 2 4
  exact ⟨h1.2.1 rfl (by decide), h2.2.2.1 rfl (by decide),
    h3.2.2.2 (by decide) (by decide)⟩
